import Mathlib

/-!
# gocfg: environment accessors and configuration assembly

A shallow embedding of `config.go` and `db.go`, together with the library
routines they call (`os.Getenv`, `strconv.Atoi`, `godotenv.Load`), and the
properties of the package stated over that embedding.

Conventions.
* A Go `string` is an immutable sequence of bytes; so is `[]byte`.  Both are
  lists of `Byte`, and the conversions `[]byte(s)` and `string(b)` copy the
  bytes unchanged.
* The platform `int` is the signed 64-bit integer; values are carried in `Int`
  and every arithmetic step that Go performs in 64 bits is wrapped explicitly.
* `log.Printf` only writes a diagnostic line; it returns nothing and never
  fails, so it leaves no trace in the values computed here.
-/

namespace Gocfg

/-! ## Strings and bytes -/

/-- One byte; arithmetic on it is modulo 256, as for Go's `byte`. -/
abbrev Byte := Fin 256

/-- A Go string: a sequence of bytes. -/
abbrev GoString := List Byte

/-- The conversion `[]byte(s)`: a copy of the bytes of `s`. -/
def bytesOfString (s : GoString) : List Byte := s

/-- The conversion `string(b)`: a string holding a copy of the bytes `b`. -/
def stringOfBytes (b : List Byte) : GoString := b

/-- The bytes (UTF-8) of a string literal of the source. -/
def lit (s : String) : GoString :=
  s.toUTF8.data.toList.map (fun b => b.val)

/-! ## The process environment -/

/-- The process environment: each name is unset (`none`) or set to a value,
which may be the empty string. -/
abbrev Env := GoString → Option GoString

/-- The environment with no variable set (`os.Clearenv`). -/
def emptyEnv : Env := fun _ => none

/-- `os.Setenv`. -/
def Setenv (env : Env) (key value : GoString) : Env :=
  fun k => if k = key then some value else env k

/-- `os.Getenv`: the value of the variable, or the empty string when it is
not present. -/
def Getenv (env : Env) (key : GoString) : GoString :=
  match env key with
  | some v => v
  | none => []

/-! ## `strconv.Atoi`

`GetEnvAsInt` calls `strconv.Atoi` of the Go standard library.  The
definitions of this section follow `strconv/atoi.go` statement by statement,
at the arguments `Atoi` uses (`ParseInt(s, 10, 0)`, hence `ParseUint(s, 10, 0)`)
and for a platform with a 64-bit `int`. -/

/-- The two errors of `strconv`: `ErrSyntax` and `ErrRange`. -/
inductive NumError where
  | ErrSyntax
  | ErrRange
  deriving DecidableEq, Repr

/-- `const intSize`: the size in bits of `int` on the platform. -/
def intSize : Nat := 64

/-- `const maxUint64`. -/
def maxUint64 : Nat := 2 ^ 64 - 1

/-- Truncation of an unsigned result to 64 bits. -/
def wrapUint64 (n : Nat) : Nat := n % 2 ^ 64

/-- Truncation of a signed result to 64 bits, two's complement. -/
def wrapInt64 (z : Int) : Int := (z + 2 ^ 63) % 2 ^ 64 - 2 ^ 63

/-- `lower(c)`: `c | ('x' - 'X')`. -/
def lower (c : Byte) : Byte := Fin.ofNat (c.val ||| 32)

/-- The `switch` of the loop of `ParseUint` that turns the byte `c` into a
digit `d`; `none` is its `default` case (a syntax error).  The `'_'` case
needs `base == 0` and is never taken here. -/
def digitOf (c : Byte) : Option Byte :=
  if 48 ≤ c.val ∧ c.val ≤ 57 then some (c - 48)
  else if 97 ≤ (lower c).val ∧ (lower c).val ≤ 122 then some (lower c - 97 + 10)
  else none

/-- The `for` loop of `ParseUint` for `base` with the given `cutoff` and
`maxVal`; `n` is the value accumulated so far.  The result is the pair that
`ParseUint` returns: a value and an error (`none` for `nil`). -/
def parseUintLoop (base cutoff maxVal : Nat) : List Byte → Nat → Nat × Option NumError
  | [], n => (n, none)
  | c :: rest, n =>
    match digitOf c with
    | none => (0, some NumError.ErrSyntax)
    | some d =>
      if d.val ≥ base % 256 then (0, some NumError.ErrSyntax)
      else if n ≥ cutoff then
        -- n*base overflows
        (maxVal, some NumError.ErrRange)
      else
        let n := wrapUint64 (n * base)
        let n1 := wrapUint64 (n + d.val)
        if n1 < n ∨ n1 > maxVal then
          -- n+d overflows
          (maxVal, some NumError.ErrRange)
        else parseUintLoop base cutoff maxVal rest n1

/-- `ParseUint(s, 10, 0)`, the only call `ParseInt(s, 10, 0)` makes: base 10
is a valid base, `bitSize` 0 stands for `IntSize`, the cutoff is
`maxUint64/10 + 1` and `maxVal` is `1<<64 - 1`.  The branches for a base
prefix and for underscores are guarded by `base == 0` and are dead here. -/
def ParseUint (s : GoString) : Nat × Option NumError :=
  if s = [] then (0, some NumError.ErrSyntax)
  else
    let cutoff := maxUint64 / 10 + 1
    let maxVal := wrapUint64 (wrapUint64 (1 <<< intSize) + 2 ^ 64 - 1)
    parseUintLoop 10 cutoff maxVal s 0

/-- `ParseInt(s, 10, 0)`, as called by `Atoi`. -/
def ParseInt (s : GoString) : Int × Option NumError :=
  match s with
  | [] => (0, some NumError.ErrSyntax)
  | c0 :: rest =>
    -- Pick off leading sign.
    let neg : Bool := decide (c0 = 45)
    let s1 : GoString := if c0 = 43 then rest else if c0 = 45 then rest else c0 :: rest
    -- Convert unsigned and check range.
    let r := ParseUint s1
    let un := r.1
    if r.2 = some NumError.ErrSyntax then (0, r.2)
    else
      let cutoff : Nat := wrapUint64 (1 <<< (intSize - 1))
      if !neg && decide (un ≥ cutoff) then (((cutoff - 1 : Nat) : Int), some NumError.ErrRange)
      else if neg && decide (un > cutoff) then (wrapInt64 (-(cutoff : Int)), some NumError.ErrRange)
      else
        let n : Int := wrapInt64 (un : Int)
        if neg then (wrapInt64 (-n), none) else (n, none)

/-- The `for` loop of the fast path of `Atoi`: `ch -= '0'` in byte
arithmetic, a syntax error (`none`) when the result exceeds 9, otherwise
`n = n*10 + int(ch)` in `int` arithmetic. -/
def atoiFastLoop : List Byte → Int → Option Int
  | [], n => some n
  | ch :: rest, n =>
    let ch : Byte := ch - 48
    if ch.val > 9 then none
    else atoiFastLoop rest (wrapInt64 (wrapInt64 (n * 10) + (ch.val : Int)))

/-- `strconv.Atoi(s)` on a platform whose `int` has 64 bits: the fast path
for strings of 1 to 18 bytes, `ParseInt(s, 10, 0)` otherwise. -/
def Atoi (s : GoString) : Int × Option NumError :=
  match s with
  | [] =>
    -- sLen == 0: slow path
    ParseInt []
  | c0 :: rest =>
    if (c0 :: rest).length < 19 then
      -- Fast path for small integers that fit int type.
      let signed : Bool := decide (c0 = 45) || decide (c0 = 43)
      let s1 : GoString := if signed then rest else c0 :: rest
      if signed && decide (s1.length < 1) then (0, some NumError.ErrSyntax)
      else
        match atoiFastLoop s1 0 with
        | none => (0, some NumError.ErrSyntax)
        | some n => if c0 = 45 then (wrapInt64 (-n), none) else (n, none)
    else
      -- Slow path for invalid, big, or underscored integers.
      ParseInt (c0 :: rest)

/-! ## `config.go`: the environment accessors -/

/-- `GetEnv(key, defaultValue)`. -/
def GetEnv (env : Env) (key : GoString) (defaultValue : GoString) : GoString :=
  let value := Getenv env key
  if value = [] then defaultValue
  else value

/-- `GetEnvAsInt(key, defaultValue)`. -/
def GetEnvAsInt (env : Env) (key : GoString) (defaultValue : Int) : Int :=
  let value := Getenv env key
  if value = [] then defaultValue
  else
    match Atoi value with
    | (_, some _) => defaultValue
    | (intValue, none) => intValue

/-! ## `db.go` and `config.go`: the configuration -/

/-- `type DatabaseConfig struct`. -/
structure DatabaseConfig where
  URI : GoString
  MaxOpenConns : Int
  MaxIdleConns : Int
  MinIdleConns : Int
  ConnMaxLifetime : Int
  deriving DecidableEq, Repr

/-- `type Config struct`.  `Database` is a `*DatabaseConfig`: `none` is the
nil pointer.  Nothing in the package writes through that pointer, so the
record it points to is carried by value. -/
structure Config where
  Addr : GoString
  SecretKey : List Byte
  Database : Option DatabaseConfig
  deriving DecidableEq, Repr

/-- A run-time panic. -/
inductive Panic where
  | nilFuncCall
  | raised (msg : GoString)
  deriving DecidableEq, Repr

/-- The result of running a statement sequence to its end: a value, or the
panic that stopped it. -/
inductive Outcome (α : Type) where
  | returned (a : α)
  | panicked (p : Panic)
  deriving DecidableEq, Repr

/-- Sequencing: the next statement runs on the value reached so far; a panic
ends the sequence. -/
def Outcome.andThen {α β : Type} (r : Outcome α) (f : α → Outcome β) : Outcome β :=
  match r with
  | Outcome.returned a => f a
  | Outcome.panicked p => Outcome.panicked p

/-- A value of type `func(*Config)`: the nil function value, or a function
that, given the `Config` behind the pointer, leaves it in a new state or
panics. -/
inductive OptionFunc where
  | nilFunc
  | fn (f : Config → Outcome Config)

/-- The call `opt(cfg)`; calling the nil function value panics. -/
def OptionFunc.call : OptionFunc → Config → Outcome Config
  | OptionFunc.nilFunc, _ => Outcome.panicked Panic.nilFuncCall
  | OptionFunc.fn f, c => f c

/-- An option that performs the update `f` and returns normally. -/
def OptionFunc.ofUpdate (f : Config → Config) : OptionFunc :=
  OptionFunc.fn (fun c => Outcome.returned (f c))

/-- What `godotenv.Load()` finds at the path `.env`: no readable, well-formed
file, or a file defining some variables. -/
inductive DotEnv where
  | missing
  | vars (m : GoString → Option GoString)

/-- Modelled from the spec: `godotenv.Load` belongs to the third-party module
`github.com/joho/godotenv`, which is not part of the repository.  It makes a
best-effort load of the local environment-definition file into the process
environment: when the file cannot be found or parsed it returns an error
(`true` in the second component) and changes nothing; otherwise every
variable of the file is set unless the process environment already has it,
so that pre-existing variables take precedence over file-sourced ones. -/
def godotenvLoad (file : DotEnv) (env : Env) : Env × Bool :=
  match file with
  | DotEnv.missing => (env, true)
  | DotEnv.vars m =>
    (fun k =>
      match env k with
      | some v => some v
      | none => m k, false)

/-- The value the file at `.env` gives to `key`: empty when there is no
usable file or the file does not define `key`. -/
def DotEnv.value (file : DotEnv) (key : GoString) : GoString :=
  match file with
  | DotEnv.missing => []
  | DotEnv.vars m =>
    match m key with
    | some v => v
    | none => []

/-- `WithDatabaseConfig(cfg)`: the closure `func(c *Config) { c.Database = cfg }`. -/
def WithDatabaseConfig (cfg : Option DatabaseConfig) : OptionFunc :=
  OptionFunc.fn (fun c => Outcome.returned { c with Database := cfg })

/-- The loop `for _, opt := range opts { opt(cfg) }` of `New`. -/
def applyOpts : List OptionFunc → Config → Outcome Config
  | [], cfg => Outcome.returned cfg
  | opt :: rest, cfg =>
    match opt.call cfg with
    | Outcome.panicked p => Outcome.panicked p
    | Outcome.returned cfg1 => applyOpts rest cfg1

/-- `New(opts...)`, run with the file `file` at `.env` and the process
environment `env`.  The error of `godotenv.Load` is only logged.  The result
is what the call returns; the variables the load added to the process
environment are not part of it. -/
def New (file : DotEnv) (env : Env) (opts : List OptionFunc) : Outcome Config :=
  let env1 := (godotenvLoad file env).1
  let cfg : Config :=
    { Addr := GetEnv env1 (lit "ADDR") (lit ":8080")
      SecretKey := bytesOfString (GetEnv env1 (lit "SECRET_KEY") (lit ""))
      Database := none }
  applyOpts opts cfg

/-! ## Decimal numerals, as the specification words them -/

/-- An ASCII decimal digit. -/
def isDigit (c : Byte) : Bool := decide (48 ≤ c.val) && decide (c.val ≤ 57)

/-- The number denoted by a sequence of decimal digits, most significant
first, continuing from the value `n` of the digits already read. -/
def decimalAcc : List Byte → Nat → Nat
  | [], n => n
  | c :: rest, n => decimalAcc rest (10 * n + (c.val - 48))

/-- The number denoted by a sequence of decimal digits. -/
def decimalValue (ds : List Byte) : Nat := decimalAcc ds 0

/-- A base-10 signed integer numeral: an optional sign `+` or `-` followed by
one or more decimal digits.  The result is the integer it denotes, of any
magnitude; `none` when the string is not such a numeral. -/
def parseDecimal (s : GoString) : Option Int :=
  match s with
  | [] => none
  | c :: rest =>
    if c = 43 then
      if rest ≠ [] ∧ rest.all isDigit then some (decimalValue rest : Int) else none
    else if c = 45 then
      if rest ≠ [] ∧ rest.all isDigit then some (-(decimalValue rest : Int)) else none
    else
      if (c :: rest).all isDigit then some (decimalValue (c :: rest) : Int) else none

/-- The least value of the platform `int`. -/
def minInt : Int := -(2 ^ 63)

/-- The greatest value of the platform `int`. -/
def maxInt : Int := 2 ^ 63 - 1

/-! # Properties -/

/-! ## Bytes and digits -/

set_option maxRecDepth 100000 in
theorem byte_sub_gt_nine : ∀ c : Byte, ((c - 48 : Byte).val > 9) = (isDigit c = false) := by
  decide

set_option maxRecDepth 100000 in
theorem byte_sub_val : ∀ c : Byte, isDigit c = true → (c - 48 : Byte).val = c.val - 48 := by
  decide

set_option maxRecDepth 100000 in
theorem digitOf_digit : ∀ c : Byte, isDigit c = true → digitOf c = some (c - 48) := by
  decide

set_option maxRecDepth 100000 in
theorem digitOf_nondigit : ∀ c : Byte, isDigit c = false →
    digitOf c = none ∨ ∃ d : Byte, digitOf c = some d ∧ 10 ≤ d.val := by
  decide

theorem isDigit_bounds {c : Byte} (h : isDigit c = true) : 48 ≤ c.val ∧ c.val ≤ 57 := by
  simpa [isDigit] using h

theorem decimalAcc_ge (ds : List Byte) (n : Nat) : n ≤ decimalAcc ds n := by
  induction ds generalizing n with
  | nil => simp [decimalAcc]
  | cons c rest ih =>
    simp only [decimalAcc]
    exact le_trans (by omega) (ih _)

/-! ## The slow path: `ParseUint` and `ParseInt` -/

theorem parseUintLoop_digits (ds : List Byte) (n : Nat)
    (hd : ds.all isDigit = true) (hn : n < 18446744073709551616) :
    parseUintLoop 10 1844674407370955162 18446744073709551615 ds n =
      if decimalAcc ds n < 18446744073709551616 then (decimalAcc ds n, none)
      else (18446744073709551615, some NumError.ErrRange) := by
  induction ds generalizing n with
  | nil => simp only [parseUintLoop, decimalAcc, if_pos hn]
  | cons c rest ih =>
    rw [List.all_cons, Bool.and_eq_true] at hd
    obtain ⟨hc, hrest⟩ := hd
    have hb := isDigit_bounds hc
    have hv := byte_sub_val c hc
    have hge := decimalAcc_ge rest (10 * n + (c.val - 48))
    have h5 : 10 * n + (c.val - 48) = n * 10 + (c.val - 48) := by omega
    rw [h5] at hge
    simp only [parseUintLoop, digitOf_digit c hc, decimalAcc, hv, wrapUint64, h5]
    have e64 : (2 : Nat) ^ 64 = 18446744073709551616 := by norm_num
    have e256 : 10 % 256 = 10 := by norm_num
    rw [e64, e256, if_neg (by omega)]
    by_cases h1 : 1844674407370955162 ≤ n
    · rw [if_pos h1, if_neg (by omega)]
    · rw [if_neg h1]
      have h2 : n * 10 % 18446744073709551616 = n * 10 := Nat.mod_eq_of_lt (by omega)
      rw [h2]
      by_cases h3 : n * 10 + (c.val - 48) < 18446744073709551616
      · have h4 : (n * 10 + (c.val - 48)) % 18446744073709551616 = n * 10 + (c.val - 48) :=
          Nat.mod_eq_of_lt h3
        rw [h4, if_neg (by omega), ih _ hrest h3]
      · rw [if_pos (by omega), if_neg (by omega)]

theorem parseUintLoop_nondigits (ds : List Byte) (n : Nat) (hd : ds.all isDigit = false) :
    parseUintLoop 10 1844674407370955162 18446744073709551615 ds n = (0, some NumError.ErrSyntax) ∨
    parseUintLoop 10 1844674407370955162 18446744073709551615 ds n =
      (18446744073709551615, some NumError.ErrRange) := by
  induction ds generalizing n with
  | nil => simp at hd
  | cons c rest ih =>
    have e256 : 10 % 256 = 10 := by norm_num
    cases hc : isDigit c with
    | false =>
      rcases digitOf_nondigit c hc with h | ⟨d, h, hd10⟩
      · left; simp only [parseUintLoop, h]
      · left; simp only [parseUintLoop, h]; rw [e256, if_pos hd10]
    | true =>
      have hrest : rest.all isDigit = false := by
        rw [List.all_cons, hc, Bool.true_and] at hd; exact hd
      have hv := byte_sub_val c hc
      have hb := isDigit_bounds hc
      simp only [parseUintLoop, digitOf_digit c hc, hv]
      rw [e256, if_neg (by omega)]
      split
      · right; rfl
      · split
        · right; rfl
        · exact ih _ hrest

theorem ParseUint_digits (ds : List Byte) (hne : ds ≠ []) (hd : ds.all isDigit = true) :
    ParseUint ds =
      if decimalValue ds < 18446744073709551616 then (decimalValue ds, none)
      else (18446744073709551615, some NumError.ErrRange) := by
  have h := parseUintLoop_digits ds 0 hd (by norm_num)
  simp only [ParseUint, if_neg hne, maxUint64, wrapUint64, intSize, decimalValue]
  norm_num
  exact h

theorem ParseUint_nondigits (ds : List Byte) (hd : ds = [] ∨ ds.all isDigit = false) :
    ParseUint ds = (0, some NumError.ErrSyntax) ∨
    ParseUint ds = (18446744073709551615, some NumError.ErrRange) := by
  by_cases hne : ds = []
  · left; simp [ParseUint, hne]
  · have hd2 : ds.all isDigit = false := by
      rcases hd with h | h
      · exact absurd h hne
      · exact h
    have h := parseUintLoop_nondigits ds 0 hd2
    simp only [ParseUint, if_neg hne, maxUint64, wrapUint64, intSize]
    norm_num
    exact h

/-- The digits of a numeral: what is left of `c0 :: rest` once a leading sign
has been picked off. -/
theorem parseDecimal_cons (c0 : Byte) (rest : List Byte) :
    parseDecimal (c0 :: rest) =
      if (if c0 = 43 then rest else if c0 = 45 then rest else c0 :: rest) ≠ [] ∧
          (if c0 = 43 then rest else if c0 = 45 then rest else c0 :: rest).all isDigit = true then
        some (if c0 = 45 then
            -((decimalValue (if c0 = 43 then rest else if c0 = 45 then rest else c0 :: rest) : Nat) : Int)
          else
            ((decimalValue (if c0 = 43 then rest else if c0 = 45 then rest else c0 :: rest) : Nat) : Int))
      else none := by
  by_cases h43 : c0 = 43
  · have h45 : c0 ≠ 45 := by rw [h43]; decide
    simp only [parseDecimal, if_pos h43, if_neg h45]
  · by_cases h45 : c0 = 45
    · simp only [parseDecimal, if_neg h43, if_pos h45]
    · simp only [parseDecimal, if_neg h43, if_neg h45]
      simp

theorem ParseInt_cons_digits (c0 : Byte) (rest s1 : List Byte)
    (hs1 : s1 = if c0 = 43 then rest else if c0 = 45 then rest else c0 :: rest)
    (hne : s1 ≠ []) (hd : s1.all isDigit = true) :
    ParseInt (c0 :: rest) =
      if c0 = 45 then
        (if decimalValue s1 ≤ 9223372036854775808 then (-((decimalValue s1 : Nat) : Int), none)
         else (-9223372036854775808, some NumError.ErrRange))
      else
        (if decimalValue s1 < 9223372036854775808 then (((decimalValue s1 : Nat) : Int), none)
         else (9223372036854775807, some NumError.ErrRange)) := by
  have hu := ParseUint_digits s1 hne hd
  have e1 : wrapUint64 (1 <<< (intSize - 1)) = 9223372036854775808 := by decide
  simp only [ParseInt, ← hs1, e1]
  by_cases h45 : c0 = 45
  · simp only [h45, decide_True, Bool.not_true, Bool.false_and, Bool.true_and, if_true]
    by_cases hv : decimalValue s1 < 18446744073709551616
    · rw [if_pos hv] at hu
      simp only [hu]
      by_cases hv2 : decimalValue s1 ≤ 9223372036854775808
      · simp [hv2, wrapInt64]
        rw [if_neg (by omega)]
        simp only [Prod.mk.injEq, and_true]
        omega
      · simp [hv2, wrapInt64]
    · rw [if_neg hv] at hu
      simp only [hu]
      have hv2 : ¬ decimalValue s1 ≤ 9223372036854775808 := by omega
      simp [hv2, wrapInt64]
  · simp only [h45, decide_False, Bool.not_false, Bool.false_and, Bool.true_and, if_false]
    by_cases hv : decimalValue s1 < 18446744073709551616
    · rw [if_pos hv] at hu
      simp only [hu]
      by_cases hv2 : decimalValue s1 < 9223372036854775808
      · simp [hv2, wrapInt64]
        rw [if_neg (by omega)]
        simp only [Prod.mk.injEq, and_true]
        omega
      · simp [hv2, wrapInt64]
    · rw [if_neg hv] at hu
      simp only [hu]
      have hv2 : ¬ decimalValue s1 < 9223372036854775808 := by omega
      simp [hv2, wrapInt64]

theorem ParseInt_cons_nondigits (c0 : Byte) (rest s1 : List Byte)
    (hs1 : s1 = if c0 = 43 then rest else if c0 = 45 then rest else c0 :: rest)
    (hd : s1 = [] ∨ s1.all isDigit = false) :
    ∃ e, (ParseInt (c0 :: rest)).2 = some e := by
  have e1 : wrapUint64 (1 <<< (intSize - 1)) = 9223372036854775808 := by decide
  rcases ParseUint_nondigits s1 hd with hu | hu
  · exact ⟨NumError.ErrSyntax, by simp only [ParseInt, ← hs1, hu, if_true]⟩
  · refine ⟨NumError.ErrRange, ?_⟩
    simp only [ParseInt, ← hs1, hu, e1]
    by_cases h45 : c0 = 45
    · simp [h45]
    · simp [h45]

/-! ## The fast path of `Atoi` -/

theorem decimalAcc_bound (ds : List Byte) (n : Nat) (hd : ds.all isDigit = true) :
    decimalAcc ds n + 1 ≤ (n + 1) * 10 ^ ds.length := by
  induction ds generalizing n with
  | nil => simp [decimalAcc]
  | cons c rest ih =>
    rw [List.all_cons, Bool.and_eq_true] at hd
    obtain ⟨hc, hrest⟩ := hd
    have hb := isDigit_bounds hc
    simp only [decimalAcc, List.length_cons, pow_succ]
    refine le_trans (ih _ hrest) ?_
    have h1 : 10 * n + (c.val - 48) + 1 ≤ (n + 1) * 10 := by omega
    calc (10 * n + (c.val - 48) + 1) * 10 ^ rest.length
        ≤ ((n + 1) * 10) * 10 ^ rest.length := Nat.mul_le_mul_right _ h1
      _ = (n + 1) * (10 ^ rest.length * 10) := by ring

theorem atoiFastLoop_digits (ds : List Byte) (n : Nat) (hd : ds.all isDigit = true)
    (hb : (n + 1) * 10 ^ ds.length ≤ 10 ^ 18) :
    atoiFastLoop ds (n : Int) = some ((decimalAcc ds n : Nat) : Int) := by
  induction ds generalizing n with
  | nil => simp [atoiFastLoop, decimalAcc]
  | cons c rest ih =>
    rw [List.all_cons, Bool.and_eq_true] at hd
    obtain ⟨hc, hrest⟩ := hd
    have hcb := isDigit_bounds hc
    have hv := byte_sub_val c hc
    have hpos : 0 < 10 ^ rest.length := Nat.pos_pow_of_pos _ (by norm_num)
    have h1 : 10 * n + (c.val - 48) + 1 ≤ (n + 1) * 10 := by omega
    have h2 : (10 * n + (c.val - 48) + 1) * 10 ^ rest.length ≤ 10 ^ 18 := by
      calc (10 * n + (c.val - 48) + 1) * 10 ^ rest.length
          ≤ ((n + 1) * 10) * 10 ^ rest.length := Nat.mul_le_mul_right _ h1
        _ = (n + 1) * 10 ^ (rest.length + 1) := by ring
        _ ≤ 10 ^ 18 := by simpa using hb
    have h3 : 10 * n + (c.val - 48) + 1 ≤ 10 ^ 18 :=
      le_trans (Nat.le_mul_of_pos_right _ hpos) h2
    have h4 : wrapInt64 (wrapInt64 ((n : Int) * 10) + (((c - 48 : Byte).val : Nat) : Int)) =
        ((10 * n + (c.val - 48) : Nat) : Int) := by
      rw [hv]
      simp only [wrapInt64]
      norm_num at h3 ⊢
      omega
    simp only [atoiFastLoop, decimalAcc]
    rw [if_neg (by rw [hv]; omega), h4]
    exact ih _ hrest h2

theorem atoiFastLoop_nondigits (ds : List Byte) (n : Int) (hd : ds.all isDigit = false) :
    atoiFastLoop ds n = none := by
  induction ds generalizing n with
  | nil => simp at hd
  | cons c rest ih =>
    cases hc : isDigit c with
    | false =>
      have h := byte_sub_gt_nine c
      simp only [atoiFastLoop]
      rw [if_pos (by rw [h]; exact hc)]
    | true =>
      have hrest : rest.all isDigit = false := by
        rw [List.all_cons, hc, Bool.true_and] at hd; exact hd
      have hv := byte_sub_val c hc
      have hcb := isDigit_bounds hc
      simp only [atoiFastLoop]
      rw [if_neg (by rw [hv]; omega)]
      exact ih _ hrest

theorem decimalValue_lt_of_short (ds : List Byte) (hd : ds.all isDigit = true)
    (hlen : ds.length ≤ 18) : decimalValue ds < 10 ^ 18 := by
  have h := decimalAcc_bound ds 0 hd
  have h2 : 10 ^ ds.length ≤ 10 ^ 18 := Nat.pow_le_pow_right (by norm_num) hlen
  simp only [decimalValue]
  omega

theorem atoiFastLoop_short (ds : List Byte) (hlen : ds.length ≤ 18) :
    atoiFastLoop ds 0 =
      if ds.all isDigit = true then some ((decimalValue ds : Nat) : Int) else none := by
  by_cases hd : ds.all isDigit = true
  · rw [if_pos hd]
    have h2 : 10 ^ ds.length ≤ 10 ^ 18 := Nat.pow_le_pow_right (by norm_num) hlen
    have h := atoiFastLoop_digits ds 0 hd (by omega)
    simpa [decimalValue] using h
  · rw [if_neg hd]
    exact atoiFastLoop_nondigits ds 0 (by simpa using hd)

/-- On the fast path `Atoi` computes exactly the integer the numeral denotes,
and reports a syntax error for everything else. -/
theorem Atoi_fast (c0 : Byte) (rest : List Byte) (hlen : (c0 :: rest).length < 19) :
    Atoi (c0 :: rest) =
      match parseDecimal (c0 :: rest) with
      | some z => (z, none)
      | none => (0, some NumError.ErrSyntax) := by
  have hlen1 : rest.length ≤ 18 := by simp only [List.length_cons] at hlen; omega
  have hlen2 : (c0 :: rest).length ≤ 18 := by omega
  have hr := atoiFastLoop_short rest hlen1
  have hs := atoiFastLoop_short (c0 :: rest) hlen2
  simp only [Atoi, if_pos hlen]
  by_cases h43 : c0 = 43
  · have h45 : c0 ≠ 45 := by rw [h43]; decide
    simp only [parseDecimal, if_pos h43, if_neg h45, h43, h45, decide_True,
      decide_False, Bool.or_true, Bool.true_and, if_true, hr]
    by_cases hne : rest = []
    · simp [hne]
    · by_cases hd : rest.all isDigit = true
      · simp [hne, hd, List.length_pos]
      · simp [hne, hd, List.length_pos]
  · by_cases h45 : c0 = 45
    · simp only [parseDecimal, if_neg h43, if_pos h45, h45, decide_True,
        Bool.true_or, Bool.true_and, if_true, hr]
      by_cases hne : rest = []
      · simp [hne]
      · by_cases hd : rest.all isDigit = true
        · have hb := decimalValue_lt_of_short rest hd hlen1
          simp [hne, hd, List.length_pos, wrapInt64]
          norm_num at hb
          omega
        · simp [hne, hd, List.length_pos]
    · simp only [parseDecimal, if_neg h43, if_neg h45, h43, h45, decide_False,
        Bool.or_false, Bool.false_and, if_false, Bool.false_eq_true]
      rw [hs]
      by_cases hd : (c0 :: rest).all isDigit = true
      · simp only [if_pos hd]
      · simp only [if_neg hd]

theorem parseDecimal_short_bound (s : GoString) (z : Int) (hlen : s.length < 19)
    (h : parseDecimal s = some z) : -(10 ^ 18) < z ∧ z < 10 ^ 18 := by
  cases s with
  | nil => simp [parseDecimal] at h
  | cons c0 rest =>
    rw [parseDecimal_cons] at h
    have hs1 : (if c0 = 43 then rest else if c0 = 45 then rest else c0 :: rest).length ≤ 18 := by
      simp only [List.length_cons] at hlen
      split
      · omega
      · split
        · omega
        · simp only [List.length_cons]; omega
    generalize (if c0 = 43 then rest else if c0 = 45 then rest else c0 :: rest) = s1 at h hs1
    by_cases hcond : s1 ≠ [] ∧ s1.all isDigit = true
    · rw [if_pos hcond] at h
      have hb := decimalValue_lt_of_short s1 hcond.2 hs1
      norm_num at hb ⊢
      simp only [Option.some.injEq] at h
      by_cases h45 : c0 = 45
      · rw [if_pos h45] at h; omega
      · rw [if_neg h45] at h; omega
    · rw [if_neg hcond] at h
      exact absurd h (by simp)

/-! ## `Atoi` against decimal numerals -/

theorem Atoi_slow (s : GoString) (hlen : ¬ (0 < s.length ∧ s.length < 19)) :
    Atoi s = ParseInt s := by
  cases s with
  | nil => rfl
  | cons c0 rest =>
    have h : ¬ (c0 :: rest).length < 19 := fun h => hlen ⟨by simp, h⟩
    simp only [Atoi, if_neg h]

/-- A numeral whose value fits the platform `int` is converted to that value. -/
theorem Atoi_of_inRange (s : GoString) (z : Int) (h : parseDecimal s = some z)
    (hlo : minInt ≤ z) (hhi : z ≤ maxInt) : Atoi s = (z, none) := by
  cases s with
  | nil => simp [parseDecimal] at h
  | cons c0 rest =>
    by_cases hlen : (c0 :: rest).length < 19
    · rw [Atoi_fast c0 rest hlen, h]
    · rw [Atoi_slow _ (fun hh => hlen hh.2)]
      rw [parseDecimal_cons] at h
      generalize hs1 : (if c0 = 43 then rest else if c0 = 45 then rest else c0 :: rest) = s1 at h
      by_cases hcond : s1 ≠ [] ∧ s1.all isDigit = true
      · rw [if_pos hcond] at h
        rw [ParseInt_cons_digits c0 rest s1 hs1.symm hcond.1 hcond.2]
        simp only [Option.some.injEq] at h
        simp only [minInt, maxInt] at hlo hhi
        norm_num at hlo hhi
        by_cases h45 : c0 = 45
        · rw [if_pos h45] at h ⊢
          rw [if_pos (by omega), h]
        · rw [if_neg h45] at h ⊢
          rw [if_pos (by omega), h]
      · rw [if_neg hcond] at h
        exact absurd h (by simp)

/-- A numeral whose value does not fit the platform `int` is a range error. -/
theorem Atoi_of_outOfRange (s : GoString) (z : Int) (h : parseDecimal s = some z)
    (hout : z < minInt ∨ maxInt < z) : (Atoi s).2 = some NumError.ErrRange := by
  simp only [minInt, maxInt] at hout
  norm_num at hout
  cases s with
  | nil => simp [parseDecimal] at h
  | cons c0 rest =>
    by_cases hlen : (c0 :: rest).length < 19
    · have hb := parseDecimal_short_bound _ z hlen h
      norm_num at hb
      omega
    · rw [Atoi_slow _ (fun hh => hlen hh.2)]
      rw [parseDecimal_cons] at h
      generalize hs1 : (if c0 = 43 then rest else if c0 = 45 then rest else c0 :: rest) = s1 at h
      by_cases hcond : s1 ≠ [] ∧ s1.all isDigit = true
      · rw [if_pos hcond] at h
        rw [ParseInt_cons_digits c0 rest s1 hs1.symm hcond.1 hcond.2]
        simp only [Option.some.injEq] at h
        by_cases h45 : c0 = 45
        · rw [if_pos h45] at h ⊢
          rw [if_neg (by omega)]
        · rw [if_neg h45] at h ⊢
          rw [if_neg (by omega)]
      · rw [if_neg hcond] at h
        exact absurd h (by simp)

/-- A string that is not a numeral is an error. -/
theorem Atoi_of_not_numeral (s : GoString) (h : parseDecimal s = none) :
    ∃ e, (Atoi s).2 = some e := by
  cases s with
  | nil => exact ⟨NumError.ErrSyntax, rfl⟩
  | cons c0 rest =>
    by_cases hlen : (c0 :: rest).length < 19
    · rw [Atoi_fast c0 rest hlen, h]
      exact ⟨NumError.ErrSyntax, rfl⟩
    · rw [Atoi_slow _ (fun hh => hlen hh.2)]
      rw [parseDecimal_cons] at h
      generalize hs1 : (if c0 = 43 then rest else if c0 = 45 then rest else c0 :: rest) = s1 at h
      by_cases hcond : s1 ≠ [] ∧ s1.all isDigit = true
      · rw [if_pos hcond] at h
        exact absurd h (by simp)
      · apply ParseInt_cons_nondigits c0 rest s1 hs1.symm
        by_cases hne : s1 = []
        · exact Or.inl hne
        · right
          cases hall : s1.all isDigit with
          | false => rfl
          | true => exact absurd ⟨hne, hall⟩ hcond

/-- The code accepts exactly the numerals that fit the platform `int`. -/
theorem Atoi_ok_iff (s : GoString) (z : Int) :
    Atoi s = (z, none) ↔ parseDecimal s = some z ∧ minInt ≤ z ∧ z ≤ maxInt := by
  constructor
  · intro h
    cases hp : parseDecimal s with
    | none =>
      obtain ⟨e, he⟩ := Atoi_of_not_numeral s hp
      rw [h] at he
      exact absurd he (by simp)
    | some w =>
      by_cases hr : minInt ≤ w ∧ w ≤ maxInt
      · have h2 := Atoi_of_inRange s w hp hr.1 hr.2
        rw [h] at h2
        have hzw : z = w := by simpa using h2
        subst hzw
        exact ⟨rfl, hr⟩
      · have h2 := Atoi_of_outOfRange s w hp (by
          by_cases hlo : minInt ≤ w
          · right
            exact lt_of_not_le (fun hhi => hr ⟨hlo, hhi⟩)
          · left
            exact lt_of_not_le hlo)
        rw [h] at h2
        exact absurd h2 (by simp)
  · rintro ⟨hp, hlo, hhi⟩
    exact Atoi_of_inRange s z hp hlo hhi

/-! ## The environment accessors -/

theorem Getenv_of_set (env : Env) (key v : GoString) (h : env key = some v) :
    Getenv env key = v := by
  simp only [Getenv, h]

theorem Getenv_of_unset (env : Env) (key : GoString) (h : env key = none) :
    Getenv env key = [] := by
  simp only [Getenv, h]

/-- C1. When `key` is unset or set to the empty string, `GetEnv(key, d)` is
exactly `d`, for every key, default and environment. -/
theorem GetEnv_unset_or_empty (env : Env) (key d : GoString)
    (h : env key = none ∨ env key = some []) : GetEnv env key d = d := by
  rcases h with h | h
  · simp only [GetEnv, Getenv_of_unset env key h, if_true]
  · simp only [GetEnv, Getenv_of_set env key [] h, if_true]

theorem GetEnv_unset_or_empty_witness :
    (emptyEnv (lit "TEST_VAR") = none ∧
      GetEnv emptyEnv (lit "TEST_VAR") (lit "default") = lit "default") ∧
    (Setenv emptyEnv (lit "TEST_VAR") (lit "") (lit "TEST_VAR") = some [] ∧
      GetEnv (Setenv emptyEnv (lit "TEST_VAR") (lit "")) (lit "TEST_VAR") (lit "default") =
        lit "default") :=
  ⟨⟨rfl, GetEnv_unset_or_empty emptyEnv (lit "TEST_VAR") (lit "default") (Or.inl rfl)⟩,
   ⟨by decide,
    GetEnv_unset_or_empty (Setenv emptyEnv (lit "TEST_VAR") (lit "")) (lit "TEST_VAR")
      (lit "default") (Or.inr (by decide))⟩⟩

/-- C2. When `key` is set to a non-empty string `v`, `GetEnv(key, d)` is `v`
itself, byte for byte, whatever the default `d` is; in particular when `d` is
the empty string. -/
theorem GetEnv_set_nonempty (env : Env) (key v d : GoString)
    (hset : env key = some v) (hne : v ≠ []) :
    GetEnv env key d = v ∧ GetEnv env key (lit "") = v := by
  have h : ∀ d1 : GoString, GetEnv env key d1 = v := by
    intro d1
    simp only [GetEnv, Getenv_of_set env key v hset, if_neg hne]
  exact ⟨h d, h _⟩

theorem GetEnv_set_nonempty_witness :
    GetEnv (Setenv emptyEnv (lit "TEST_VAR") (lit " custom ")) (lit "TEST_VAR") (lit "default") =
      lit " custom " ∧
    GetEnv (Setenv emptyEnv (lit "TEST_VAR") (lit " custom ")) (lit "TEST_VAR") (lit "") =
      lit " custom " :=
  GetEnv_set_nonempty (Setenv emptyEnv (lit "TEST_VAR") (lit " custom ")) (lit "TEST_VAR")
    (lit " custom ") (lit "default") (by decide) (by decide)

/-- C3. When `key` is set to a numeral denoting the integer `n` of the
platform `int`, `GetEnvAsInt(key, d)` is `n`, whatever the default `d` is;
`n` may be negative or zero. -/
theorem GetEnvAsInt_parsable (env : Env) (key v : GoString) (d n : Int)
    (hset : env key = some v) (hparse : parseDecimal v = some n)
    (hlo : minInt ≤ n) (hhi : n ≤ maxInt) : GetEnvAsInt env key d = n := by
  have hne : v ≠ [] := by
    intro h
    rw [h] at hparse
    simp [parseDecimal] at hparse
  simp only [GetEnvAsInt, Getenv_of_set env key v hset, if_neg hne,
    Atoi_of_inRange v n hparse hlo hhi]

theorem GetEnvAsInt_parsable_witness :
    GetEnvAsInt (Setenv emptyEnv (lit "TEST_INT") (lit "-5")) (lit "TEST_INT") 0 = -5 ∧
    GetEnvAsInt (Setenv emptyEnv (lit "TEST_INT") (lit "0")) (lit "TEST_INT") 100 = 0 ∧
    GetEnvAsInt (Setenv emptyEnv (lit "TEST_INT") (lit "42")) (lit "TEST_INT") 10 = 42 :=
  ⟨GetEnvAsInt_parsable (Setenv emptyEnv (lit "TEST_INT") (lit "-5")) (lit "TEST_INT")
      (lit "-5") 0 (-5) (by decide) (by decide) (by decide) (by decide),
   GetEnvAsInt_parsable (Setenv emptyEnv (lit "TEST_INT") (lit "0")) (lit "TEST_INT")
      (lit "0") 100 0 (by decide) (by decide) (by decide) (by decide),
   GetEnvAsInt_parsable (Setenv emptyEnv (lit "TEST_INT") (lit "42")) (lit "TEST_INT")
      (lit "42") 10 42 (by decide) (by decide) (by decide) (by decide)⟩

/-- C4. `GetEnvAsInt(key, d)` is exactly `d` when `key` is unset, set to the
empty string, or set to a string that is not an integer numeral.  The result
is a plain `int`: no error value exists to be returned. -/
theorem GetEnvAsInt_default (env : Env) (key : GoString) (d : Int)
    (h : env key = none ∨ env key = some [] ∨
      ∃ v, env key = some v ∧ parseDecimal v = none) :
    GetEnvAsInt env key d = d := by
  rcases h with h | h | ⟨v, hset, hparse⟩
  · simp only [GetEnvAsInt, Getenv_of_unset env key h, if_true]
  · simp only [GetEnvAsInt, Getenv_of_set env key [] h, if_true]
  · obtain ⟨e, he⟩ := Atoi_of_not_numeral v hparse
    simp only [GetEnvAsInt, Getenv_of_set env key v hset]
    split
    · rfl
    · split
      · rfl
      · rename_i heq
        rw [heq] at he
        exact absurd he (by simp)

theorem GetEnvAsInt_default_witness :
    GetEnvAsInt emptyEnv (lit "TEST_INT") 10 = 10 ∧
    GetEnvAsInt (Setenv emptyEnv (lit "TEST_INT") (lit "")) (lit "TEST_INT") 10 = 10 ∧
    GetEnvAsInt (Setenv emptyEnv (lit "TEST_INT") (lit "not-a-number")) (lit "TEST_INT") 10 = 10 :=
  ⟨GetEnvAsInt_default emptyEnv (lit "TEST_INT") 10 (Or.inl rfl),
   GetEnvAsInt_default (Setenv emptyEnv (lit "TEST_INT") (lit "")) (lit "TEST_INT") 10
     (Or.inr (Or.inl (by decide))),
   GetEnvAsInt_default (Setenv emptyEnv (lit "TEST_INT") (lit "not-a-number")) (lit "TEST_INT") 10
     (Or.inr (Or.inr ⟨lit "not-a-number", by decide, by decide⟩))⟩

/-- C10. When `key` is set to a decimal numeral, signed or not, whose value
lies outside the signed 64-bit range, `GetEnvAsInt(key, d)` is `d`; when it
is set to a plus sign followed by decimal digits whose value fits the `int`,
the result is that value, so that `+5` gives 5. -/
theorem GetEnvAsInt_range_and_plus (env : Env) (key : GoString) (d : Int) :
    (∀ (v : GoString) (n : Int), env key = some v → parseDecimal v = some n →
      (n < minInt ∨ maxInt < n) → GetEnvAsInt env key d = d) ∧
    (∀ ds : List Byte, env key = some (lit "+" ++ ds) → ds ≠ [] → ds.all isDigit = true →
      ((decimalValue ds : Nat) : Int) ≤ maxInt →
      GetEnvAsInt env key d = ((decimalValue ds : Nat) : Int)) ∧
    (env key = some (lit "+5") → GetEnvAsInt env key d = 5) := by
  refine ⟨?_, ?_, ?_⟩
  · intro v n hset hparse hout
    have he := Atoi_of_outOfRange v n hparse hout
    simp only [GetEnvAsInt, Getenv_of_set env key v hset]
    split
    · rfl
    · split
      · rfl
      · rename_i heq
        rw [heq] at he
        exact absurd he (by simp)
  · intro ds hset hne hd hhi
    have hplus : lit "+" ++ ds = (43 : Byte) :: ds := by
      have h1 : lit "+" = [(43 : Byte)] := by decide
      rw [h1]; rfl
    rw [hplus] at hset
    have hparse : parseDecimal ((43 : Byte) :: ds) = some ((decimalValue ds : Nat) : Int) := by
      simp only [parseDecimal, if_true]
      rw [if_pos ⟨hne, hd⟩]
    have hlo : minInt ≤ ((decimalValue ds : Nat) : Int) := by
      simp only [minInt]
      have h0 : (0 : Int) ≤ ((decimalValue ds : Nat) : Int) := Int.ofNat_nonneg _
      have h1 : -((2 : Int) ^ 63) ≤ 0 := by norm_num
      exact le_trans h1 h0
    have hcons : ((43 : Byte) :: ds) ≠ [] := List.cons_ne_nil _ _
    simp only [GetEnvAsInt, Getenv_of_set env key _ hset, if_neg hcons,
      Atoi_of_inRange _ _ hparse hlo hhi]
  · intro hset
    have hne : lit "+5" ≠ [] := by decide
    have ha : Atoi (lit "+5") = (5, none) := by decide
    simp only [GetEnvAsInt, Getenv_of_set env key _ hset, if_neg hne, ha]

theorem GetEnvAsInt_range_and_plus_witness :
    GetEnvAsInt (Setenv emptyEnv (lit "N") (lit "9223372036854775808")) (lit "N") 7 = 7 ∧
    GetEnvAsInt (Setenv emptyEnv (lit "N") (lit "-9223372036854775809")) (lit "N") 7 = 7 ∧
    GetEnvAsInt (Setenv emptyEnv (lit "N") (lit "+" ++ lit "1000000000000000000")) (lit "N") 7 =
      1000000000000000000 ∧
    GetEnvAsInt (Setenv emptyEnv (lit "N") (lit "+" ++ lit "9223372036854775807")) (lit "N") 7 =
      9223372036854775807 ∧
    GetEnvAsInt (Setenv emptyEnv (lit "N") (lit "+" ++ lit "5")) (lit "N") 7 = 5 ∧
    GetEnvAsInt (Setenv emptyEnv (lit "N") (lit "+5")) (lit "N") 7 = 5 :=
  ⟨(GetEnvAsInt_range_and_plus (Setenv emptyEnv (lit "N") (lit "9223372036854775808"))
      (lit "N") 7).1 (lit "9223372036854775808") 9223372036854775808
      (by decide) (by decide) (Or.inr (by decide)),
   (GetEnvAsInt_range_and_plus (Setenv emptyEnv (lit "N") (lit "-9223372036854775809"))
      (lit "N") 7).1 (lit "-9223372036854775809") (-9223372036854775809)
      (by decide) (by decide) (Or.inl (by decide)),
   (GetEnvAsInt_range_and_plus (Setenv emptyEnv (lit "N") (lit "+" ++ lit "1000000000000000000"))
      (lit "N") 7).2.1 (lit "1000000000000000000") (by decide) (by decide) (by decide)
      (by decide),
   (GetEnvAsInt_range_and_plus (Setenv emptyEnv (lit "N") (lit "+" ++ lit "9223372036854775807"))
      (lit "N") 7).2.1 (lit "9223372036854775807") (by decide) (by decide) (by decide)
      (by decide),
   (GetEnvAsInt_range_and_plus (Setenv emptyEnv (lit "N") (lit "+" ++ lit "5"))
      (lit "N") 7).2.1 (lit "5") (by decide) (by decide) (by decide) (by decide),
   (GetEnvAsInt_range_and_plus (Setenv emptyEnv (lit "N") (lit "+5")) (lit "N") 7).2.2
      (by decide)⟩

/-! ## The configuration assembler -/

theorem Getenv_godotenvLoad (file : DotEnv) (env : Env) (key : GoString) :
    Getenv (godotenvLoad file env).1 key =
      match env key with
      | some v => v
      | none => file.value key := by
  cases file with
  | missing =>
    simp only [godotenvLoad, Getenv, DotEnv.value]
  | vars m =>
    simp only [godotenvLoad, Getenv, DotEnv.value]
    cases env key with
    | some v => rfl
    | none => cases m key <;> rfl

theorem applyOpts_eq_foldl (opts : List OptionFunc) (r : Outcome Config) :
    r.andThen (applyOpts opts) =
      opts.foldl (fun (acc : Outcome Config) (opt : OptionFunc) => acc.andThen opt.call) r := by
  induction opts generalizing r with
  | nil => cases r <;> rfl
  | cons o rest ih =>
    rw [List.foldl_cons, ← ih]
    cases r with
    | returned c =>
      simp only [Outcome.andThen, applyOpts]
      cases o.call c <;> rfl
    | panicked p => rfl

theorem applyOpts_ofUpdate (fs : List (Config → Config)) (cfg : Config) :
    applyOpts (fs.map OptionFunc.ofUpdate) cfg =
      Outcome.returned (fs.foldl (fun c f => f c) cfg) := by
  induction fs generalizing cfg with
  | nil => rfl
  | cons f rest ih =>
    simp only [List.map_cons, applyOpts, OptionFunc.ofUpdate, OptionFunc.call, List.foldl_cons]
    exact ih (f cfg)

theorem applyOpts_returns (opts : List OptionFunc) (cfg : Config)
    (h : ∀ o ∈ opts, ∀ c : Config, ∃ c1, o.call c = Outcome.returned c1) :
    ∃ c1, applyOpts opts cfg = Outcome.returned c1 := by
  induction opts generalizing cfg with
  | nil => exact ⟨cfg, rfl⟩
  | cons o rest ih =>
    obtain ⟨c1, hc1⟩ := h o (List.mem_cons_self _ _) cfg
    simp only [applyOpts, hc1]
    exact ih c1 (fun o1 ho1 => h o1 (List.mem_cons_of_mem _ ho1))

/-- C5, as amended. With no options, no environment variable set, and a
`.env` file that is absent, unusable, or gives neither `ADDR` nor
`SECRET_KEY` a non-empty value, `New()` returns the Config with Addr `:8080`,
empty SecretKey and nil Database. -/
theorem New_defaults (file : DotEnv) (env : Env) (henv : ∀ k, env k = none)
    (haddr : file.value (lit "ADDR") = []) (hkey : file.value (lit "SECRET_KEY") = []) :
    New file env [] =
      Outcome.returned { Addr := lit ":8080", SecretKey := [], Database := none } := by
  simp only [New, applyOpts, GetEnv, Getenv_godotenvLoad, henv, haddr, hkey, if_true]
  rfl

theorem New_defaults_witness :
    New DotEnv.missing emptyEnv [] =
      Outcome.returned { Addr := lit ":8080", SecretKey := [], Database := none } ∧
    New (DotEnv.vars (Setenv emptyEnv (lit "PORT") (lit "5432"))) emptyEnv [] =
      Outcome.returned { Addr := lit ":8080", SecretKey := [], Database := none } :=
  ⟨New_defaults DotEnv.missing emptyEnv (fun _ => rfl) rfl rfl,
   New_defaults (DotEnv.vars (Setenv emptyEnv (lit "PORT") (lit "5432"))) emptyEnv
     (fun _ => rfl) (by decide) (by decide)⟩

/-- C5, as stated, fails: with no options and no environment variable set,
but a `.env` file that defines `ADDR=:1234`, `New()` returns Addr `:1234`,
not `:8080`. -/
theorem New_defaults_counterexample :
    New (DotEnv.vars (Setenv emptyEnv (lit "ADDR") (lit ":1234"))) emptyEnv [] =
      Outcome.returned { Addr := lit ":1234", SecretKey := [], Database := none } ∧
    New (DotEnv.vars (Setenv emptyEnv (lit "ADDR") (lit ":1234"))) emptyEnv [] ≠
      Outcome.returned { Addr := lit ":8080", SecretKey := [], Database := none } := by
  decide

/-- C6. With no options, `ADDR` set to a non-empty `a` and `SECRET_KEY` set to
`s`, `New()` returns a Config with Addr `a`, SecretKey the bytes of `s` (so
that converting SecretKey back to a string gives `s`) and nil Database,
whatever the `.env` file holds. -/
theorem New_from_env (file : DotEnv) (env : Env) (a s : GoString)
    (haddr : env (lit "ADDR") = some a) (hne : a ≠ [])
    (hkey : env (lit "SECRET_KEY") = some s) :
    ∃ cfg, New file env [] = Outcome.returned cfg ∧ cfg.Addr = a ∧
      cfg.SecretKey = bytesOfString s ∧ stringOfBytes cfg.SecretKey = s ∧
      cfg.Database = none := by
  have hsk : GetEnv (godotenvLoad file env).1 (lit "SECRET_KEY") (lit "") = s := by
    simp only [GetEnv, Getenv_godotenvLoad, hkey]
    by_cases hs : s = []
    · rw [if_pos hs, hs]; rfl
    · rw [if_neg hs]
  have hav : GetEnv (godotenvLoad file env).1 (lit "ADDR") (lit ":8080") = a := by
    simp only [GetEnv, Getenv_godotenvLoad, haddr, if_neg hne]
  simp only [New, applyOpts, hsk, hav]
  exact ⟨_, rfl, rfl, rfl, rfl, rfl⟩

theorem New_from_env_witness :
    ∃ cfg, New (DotEnv.vars (Setenv emptyEnv (lit "ADDR") (lit ":1234")))
        (Setenv (Setenv emptyEnv (lit "SECRET_KEY") (lit "topsecret")) (lit "ADDR") (lit ":9000"))
        [] = Outcome.returned cfg ∧ cfg.Addr = lit ":9000" ∧
      cfg.SecretKey = bytesOfString (lit "topsecret") ∧
      stringOfBytes cfg.SecretKey = lit "topsecret" ∧ cfg.Database = none :=
  New_from_env (DotEnv.vars (Setenv emptyEnv (lit "ADDR") (lit ":1234")))
    (Setenv (Setenv emptyEnv (lit "SECRET_KEY") (lit "topsecret")) (lit "ADDR") (lit ":9000"))
    (lit ":9000") (lit "topsecret") (by decide) (by decide) (by decide)

/-- C7. For every database configuration `db`, `New(WithDatabaseConfig(db))`
returns a Config whose Database is `db`: not nil, with URI, MaxOpenConns,
MaxIdleConns, MinIdleConns and ConnMaxLifetime those of `db`; and applying
`WithDatabaseConfig(db)` to any Config sets its Database to `db` and leaves
the other fields alone. -/
theorem WithDatabaseConfig_sets (file : DotEnv) (env : Env) (db : DatabaseConfig) :
    (∃ cfg d, New file env [WithDatabaseConfig (some db)] = Outcome.returned cfg ∧
      cfg.Database = some d ∧ d = db ∧ d.URI = db.URI ∧ d.MaxOpenConns = db.MaxOpenConns ∧
      d.MaxIdleConns = db.MaxIdleConns ∧ d.MinIdleConns = db.MinIdleConns ∧
      d.ConnMaxLifetime = db.ConnMaxLifetime) ∧
    (∀ c : Config, (WithDatabaseConfig (some db)).call c =
      Outcome.returned { Addr := c.Addr, SecretKey := c.SecretKey, Database := some db }) := by
  refine ⟨?_, fun c => rfl⟩
  simp only [New, applyOpts, WithDatabaseConfig, OptionFunc.call]
  exact ⟨_, db, rfl, rfl, rfl, rfl, rfl, rfl, rfl, rfl⟩

/-- C8. `New` applies its options one after another in the order supplied:
its result is the left fold of the option list over the Config built from
the environment, whose Addr is `GetEnv("ADDR", ":8080")`, whose SecretKey is
the bytes of `GetEnv("SECRET_KEY", "")` and whose Database is nil, both read
after the `.env` load.  With `ADDR` set to a non-empty `a` and `SECRET_KEY`
set to `s` that Config has Addr `a` and SecretKey `s`.  After two
`WithDatabaseConfig` options the Database is that of the later one. -/
theorem New_applies_in_order (file : DotEnv) (env : Env) :
    (∀ opts : List OptionFunc, New file env opts =
      opts.foldl (fun (acc : Outcome Config) (opt : OptionFunc) => acc.andThen opt.call)
        (Outcome.returned
          { Addr := GetEnv (godotenvLoad file env).1 (lit "ADDR") (lit ":8080")
            SecretKey := bytesOfString (GetEnv (godotenvLoad file env).1 (lit "SECRET_KEY") (lit ""))
            Database := none })) ∧
    (∀ fs : List (Config → Config),
      New file env (fs.map OptionFunc.ofUpdate) =
        Outcome.returned (fs.foldl (fun c f => f c)
          { Addr := GetEnv (godotenvLoad file env).1 (lit "ADDR") (lit ":8080")
            SecretKey := bytesOfString (GetEnv (godotenvLoad file env).1 (lit "SECRET_KEY") (lit ""))
            Database := none })) ∧
    (∀ a s : GoString, env (lit "ADDR") = some a → a ≠ [] → env (lit "SECRET_KEY") = some s →
      ∀ fs : List (Config → Config),
        New file env (fs.map OptionFunc.ofUpdate) =
          Outcome.returned (fs.foldl (fun c f => f c)
            { Addr := a, SecretKey := bytesOfString s, Database := none })) ∧
    ((∀ k, env k = none) → file.value (lit "ADDR") = [] → file.value (lit "SECRET_KEY") = [] →
      ∀ fs : List (Config → Config),
        New file env (fs.map OptionFunc.ofUpdate) =
          Outcome.returned (fs.foldl (fun c f => f c)
            { Addr := lit ":8080", SecretKey := [], Database := none })) ∧
    (∀ db1 db2 : Option DatabaseConfig,
      New file env [WithDatabaseConfig db1, WithDatabaseConfig db2] =
        Outcome.returned
          { Addr := GetEnv (godotenvLoad file env).1 (lit "ADDR") (lit ":8080")
            SecretKey := bytesOfString (GetEnv (godotenvLoad file env).1 (lit "SECRET_KEY") (lit ""))
            Database := db2 }) := by
  refine ⟨?_, ?_, ?_, ?_, ?_⟩
  · intro opts
    rw [← applyOpts_eq_foldl]
    rfl
  · intro fs
    simp only [New]
    exact applyOpts_ofUpdate fs _
  · intro a s haddr hne hkey fs
    have hsk : GetEnv (godotenvLoad file env).1 (lit "SECRET_KEY") (lit "") = s := by
      simp only [GetEnv, Getenv_godotenvLoad, hkey]
      by_cases hs : s = []
      · rw [if_pos hs, hs]; rfl
      · rw [if_neg hs]
    have hav : GetEnv (godotenvLoad file env).1 (lit "ADDR") (lit ":8080") = a := by
      simp only [GetEnv, Getenv_godotenvLoad, haddr, if_neg hne]
    simp only [New, hsk, hav]
    exact applyOpts_ofUpdate fs _
  · intro henv haddr hkey fs
    have hsk : GetEnv (godotenvLoad file env).1 (lit "SECRET_KEY") (lit "") = [] := by
      simp only [GetEnv, Getenv_godotenvLoad, henv, hkey, if_true]
      rfl
    have hav : GetEnv (godotenvLoad file env).1 (lit "ADDR") (lit ":8080") = lit ":8080" := by
      simp only [GetEnv, Getenv_godotenvLoad, henv, haddr, if_true]
    simp only [New, hsk, hav]
    exact applyOpts_ofUpdate fs _
  · intro db1 db2
    simp only [New, applyOpts, WithDatabaseConfig, OptionFunc.call]

theorem New_applies_in_order_witness :
    New (DotEnv.vars (Setenv emptyEnv (lit "ADDR") (lit ":1234")))
        (Setenv (Setenv emptyEnv (lit "SECRET_KEY") (lit "k")) (lit "ADDR") (lit ":3000"))
        ([fun c => { c with Database := some ⟨lit "postgres://a", 1, 2, 3, 4⟩ },
          fun c => { c with Database := none, Addr := c.Addr ++ lit "0" }].map
            OptionFunc.ofUpdate) =
      Outcome.returned { Addr := lit ":30000", SecretKey := lit "k", Database := none } ∧
    New DotEnv.missing emptyEnv
        ([fun c => { c with Addr := c.Addr ++ lit "1" },
          fun c => { c with Addr := c.Addr ++ lit "2" }].map
            (OptionFunc.ofUpdate : (Config → Config) → OptionFunc)) =
      Outcome.returned { Addr := lit ":808012", SecretKey := [], Database := none } :=
  ⟨(New_applies_in_order (DotEnv.vars (Setenv emptyEnv (lit "ADDR") (lit ":1234")))
      (Setenv (Setenv emptyEnv (lit "SECRET_KEY") (lit "k")) (lit "ADDR") (lit ":3000"))).2.2.1
      (lit ":3000") (lit "k") (by decide) (by decide) (by decide)
      [fun c => { c with Database := some ⟨lit "postgres://a", 1, 2, 3, 4⟩ },
       fun c => { c with Database := none, Addr := c.Addr ++ lit "0" }],
   (New_applies_in_order DotEnv.missing emptyEnv).2.2.2.1 (fun _ => rfl) rfl rfl
      [fun c => { c with Addr := c.Addr ++ lit "1" },
       fun c => { c with Addr := c.Addr ++ lit "2" }]⟩

/-- C9, as amended. For every environment, every state of the `.env` file
and every list of options each of which returns normally when called, `New`
returns a Config; with nothing set and no options it is the Config of the
defaults. -/
theorem New_returns (file : DotEnv) (env : Env) (opts : List OptionFunc)
    (h : ∀ o ∈ opts, ∀ c : Config, ∃ c1, o.call c = Outcome.returned c1) :
    (∃ cfg, New file env opts = Outcome.returned cfg) ∧
    New DotEnv.missing emptyEnv [] =
      Outcome.returned { Addr := lit ":8080", SecretKey := [], Database := none } := by
  refine ⟨?_, by decide⟩
  simp only [New]
  exact applyOpts_returns opts _ h

theorem New_returns_witness :
    (∃ cfg, New DotEnv.missing (Setenv emptyEnv (lit "ADDR") (lit ":3000"))
      [WithDatabaseConfig none, OptionFunc.ofUpdate (fun c => { c with Addr := lit ":1" })] =
        Outcome.returned cfg) ∧
    New DotEnv.missing emptyEnv [] =
      Outcome.returned { Addr := lit ":8080", SecretKey := [], Database := none } :=
  New_returns DotEnv.missing (Setenv emptyEnv (lit "ADDR") (lit ":3000"))
    [WithDatabaseConfig none, OptionFunc.ofUpdate (fun c => { c with Addr := lit ":1" })]
    (by
      intro o ho c
      simp only [List.mem_cons, List.mem_singleton, List.not_mem_nil, or_false] at ho
      rcases ho with ho | ho
      · exact ⟨_, by rw [ho]; rfl⟩
      · exact ⟨_, by rw [ho]; rfl⟩)

/-- C9, as stated, fails: `New(nil)`, whose single option is the nil function
value, panics when the loop calls it. -/
theorem New_nil_option_panics :
    New DotEnv.missing emptyEnv [OptionFunc.nilFunc] = Outcome.panicked Panic.nilFuncCall ∧
    ¬ ∃ cfg, New DotEnv.missing emptyEnv [OptionFunc.nilFunc] = Outcome.returned cfg := by
  refine ⟨rfl, ?_⟩
  rintro ⟨cfg, h⟩
  have h0 : New DotEnv.missing emptyEnv [OptionFunc.nilFunc] =
      Outcome.panicked Panic.nilFuncCall := rfl
  rw [h0] at h
  exact Outcome.noConfusion h

end Gocfg
